import Mathlib

/-!
Verification development for the gre2g repository.

The file shallowly embeds the two algorithmic subsystems of the repository:

* the key-frame detection engine
  (`src/algs/key_frame_det/{frames_diff,frames_ratio,pixels_dist}.py` and the
  common contract in `key_frames_det_base.py`), and
* the hierarchical blob store backed by per-level mapping tables
  (`src/tools/databases/blob_database/file_system_db.py` with the IO handlers
  in `src/tools/io_handlers/`).

Modelling conventions:

* Python exceptions become `Except DBError`.  The constructors of `DBError`
  correspond to the distinct raise sites of the source: `notFound` for the
  `OSError("... does not exist")` raises on unresolvable user paths,
  `alreadyExists` for `OSError("Item ... already exists in the database.")`,
  `ioFailure` for `OSError`s coming from the file-system layer (a missing
  mapping-table file or data file reaching `check_file_existence` inside
  `PandasDFIOHandler.load_df` / `FileSystemIOHandler.get_file`, or
  `create_folder` hitting a file), and `validationError` for
  `ValueError`/`TypeError` raised by `tools/param_validators.py`.
* `param_val.check_type` calls are no-ops for well-typed arguments and the
  embedding works with well-typed values throughout, so they are not modelled.
* The on-disk state of the database is a pair of association lists keyed by
  file-system paths relative to the database root (`database_path` joined in
  front is a constant and is dropped): one map from a level's file-system path
  to its mapping table (the `mapping_table.<ext>` file inside the level's
  directory), and one map from a file's file-system path to its bytes
  (bytes are modelled as `List Nat`).  Directories themselves carry no other
  observable state in the source.
* `hashlib.md5(...).hexdigest()` is an external, deterministic library
  function; it is passed around as an abstract parameter `md5 : String → String`.
* The numeric kernels of the detectors (OpenCV resize, HSV conversion,
  histograms, float arithmetic) are floating-point library code; they enter
  the embedding as abstract parameters (`resize`, `score`, `hist`, `klAgg`)
  over abstract `Frame`/`Hist` types, while every piece of control flow,
  counter arithmetic and state routing of the Python methods is modelled
  exactly.  The claims settled here do not depend on the numeric values.
-/

/-- Error kinds, one per family of raise sites of the source (see the header
comment for the mapping). -/
inductive DBError : Type where
  | notFound : DBError
  | alreadyExists : DBError
  | ioFailure : DBError
  | validationError : DBError
deriving DecidableEq, Repr

/-- Decidable equality of `Except` results, so that concrete runs of the
embedded operations can be checked by `decide`. -/
instance {ε α : Type} [DecidableEq ε] [DecidableEq α] :
    DecidableEq (Except ε α) := fun x y =>
  match x, y with
  | .error a, .error b =>
    if h : a = b then .isTrue (by rw [h])
    else .isFalse (fun hh => h (by injection hh))
  | .ok a, .ok b =>
    if h : a = b then .isTrue (by rw [h])
    else .isFalse (fun hh => h (by injection hh))
  | .error _, .ok _ => .isFalse (fun hh => Except.noConfusion hh)
  | .ok _, .error _ => .isFalse (fun hh => Except.noConfusion hh)

/-- `tools/param_validators.py::check_parameter_value_in_range`: raises
`ValueError` iff the value is strictly below the lower or strictly above the
upper bound (bounds inclusive). -/
def checkValueInRange (v lo hi : ℤ) : Except DBError Unit :=
  if v < lo ∨ v > hi then .error .validationError else .ok ()

/-- `tools/param_validators.py::check_parameter_value_in_list`: raises
`ValueError` iff the value is not in the allowed list. -/
def checkValueInList (v : ℤ) (allowed : List ℤ) : Except DBError Unit :=
  if v ∈ allowed then .ok () else .error .validationError

/-- `miscellaneous/constants.py::MAX_RESOLUTION_WIDTH`. -/
def MAX_RESOLUTION_WIDTH : ℤ := 8192

/-- `miscellaneous/constants.py::MAX_RESOLUTION_HEIGHT`. -/
def MAX_RESOLUTION_HEIGHT : ℤ := 4320

/-- The data carried by `miscellaneous/structures.py::Resolution` (the three
private attributes behind the validated property setters). -/
structure ResolutionR : Type where
  width : ℤ
  height : ℤ
  channels : ℤ
deriving DecidableEq, Repr

/-- The `Resolution.width` setter: `check_parameter_value_in_range(res_width,
1, const.MAX_RESOLUTION_WIDTH)` (structures.py line 109). -/
def resolutionCheckWidth (w : ℤ) : Except DBError Unit :=
  checkValueInRange w 1 MAX_RESOLUTION_WIDTH

/-- The `Resolution.height` setter: the source validates with
`check_parameter_value_in_range(res_height, 1, const.MAX_RESOLUTION_WIDTH)`
(structures.py line 125) — note that the source really uses the WIDTH
constant here, not `MAX_RESOLUTION_HEIGHT`. -/
def resolutionCheckHeight (h : ℤ) : Except DBError Unit :=
  checkValueInRange h 1 MAX_RESOLUTION_WIDTH

/-- The `Resolution.channels` setter:
`check_parameter_value_in_list(res_channels, [-1, 1, 3, 4])`. -/
def resolutionCheckChannels (c : ℤ) : Except DBError Unit :=
  checkValueInList c [-1, 1, 3, 4]

/-- `Resolution.__init__(res_width, res_height, res_channels)`: runs the three
property setters in order; the first failing validation raises. -/
def mkResolution (w h c : ℤ) : Except DBError ResolutionR :=
  match resolutionCheckWidth w with
  | .error e => .error e
  | .ok _ =>
    match resolutionCheckHeight h with
    | .error e => .error e
    | .ok _ =>
      match resolutionCheckChannels c with
      | .error e => .error e
      | .ok _ => .ok { width := w, height := h, channels := c }

/-!
### Key-frame detectors

Debug-only attributes (`debug_level`, `debug_path`) and the debug `imwrite`
side channel are omitted: the source only ever writes debug artifacts from
them and never reads them back into the computation.
-/

/-- State of `KeyFrameDetFramesDiff` (frames_diff.py).  `prev_frame` holds the
previous BGR frame; the model tracks the allocated buffer by its numpy shape
`(height, width, channels)`, the contents being all zeros at allocation. -/
structure FDState : Type where
  prev_frame : Option (ℤ × ℤ × ℤ)
deriving DecidableEq, Repr

/-- `KeyFrameDetFramesDiff.set_video_properties(res)` (frames_diff.py lines
37-44): `self.prev_frame = np.zeros((res.height, res.width, res.channels),
dtype=np.uint8)`. -/
def framesDiffSetVideoProperties (st : FDState) (res : ResolutionR) : FDState :=
  { st with prev_frame := some (res.height, res.width, res.channels) }

/-- `KeyFrameDetFramesDiff.reset()`: `self.prev_frame = None`. -/
def framesDiffReset (st : FDState) : FDState :=
  { st with prev_frame := none }

/-- State of `KeyFrameDetFramesRatio` (frames_ratio.py), over an abstract
frame type.  `prev_frames` is the numpy array of the `max_temporal_lag` most
recent resized frames, modelled as the list of its slices along axis 0.
The aggregation kernel is constant after construction and enters the abstract
`score` oracle instead of the state. -/
structure FRState (Frame : Type) : Type where
  frame_ind : ℤ
  kf_dist : ℕ
  min_kf_distance : ℕ
  kf_threshold : ℚ
  max_temporal_lag : ℕ
  prev_frames : List Frame
  res : ResolutionR

/-- `KeyFrameDetFramesRatio.set_video_properties(self)` (frames_ratio.py lines
100-104): the override takes NO resolution argument (unlike the abstract base
`KeyFrameDetBase.set_video_properties(self, res)`) and its body is the
ellipsis literal `...`, i.e. it does nothing. -/
def framesRatioSetVideoProperties {Frame : Type} (st : FRState Frame) : FRState Frame :=
  st

/-- `KeyFrameDetFramesRatio.reset()` (frames_ratio.py lines 106-115):
`frame_ind = -1`, `kf_dist = min_kf_distance` (comment in source: "to be able
to detect very first frame"), and `prev_frames = np.zeros((max_temporal_lag,
h, w, c))`, i.e. `max_temporal_lag` copies of the all-zero frame. -/
def framesRatioReset {Frame : Type} (zeroFrame : Frame) (st : FRState Frame) :
    FRState Frame :=
  { st with
    frame_ind := -1
    kf_dist := st.min_kf_distance
    prev_frames := List.replicate st.max_temporal_lag zeroFrame }

/-- `KeyFrameDetFramesRatio.__call__(new_frame)` (frames_ratio.py lines
117-159).  `resize` abstracts `cv.resize` to the processing resolution;
`score st.prev_frames fr` abstracts the numeric block computing
`frames_diff_ratio` from the einsum-aggregated window and the resized frame
(lines 136-141).  Control flow, counters and state routing are exact:
increment `frame_ind` and `kf_dist`; if `kf_dist < min_kf_distance` return
`False` early (hysteresis short-circuit, window NOT updated); otherwise
compare the score against `kf_threshold`, zero `kf_dist` on detection, and
shift-append the resized frame into the window
(`prev_frames[0:lag-1] = prev_frames[1:lag]; prev_frames[lag-1] = fr`). -/
def framesRatioStep {Frame : Type} (resize : Frame → Frame)
    (score : List Frame → Frame → ℚ) (st : FRState Frame) (f : Frame) :
    Bool × FRState Frame :=
  let fi := st.frame_ind + 1
  let kd := st.kf_dist + 1
  if kd < st.min_kf_distance then
    (false, { st with frame_ind := fi, kf_dist := kd })
  else
    let fr := resize f
    let isKF : Bool := decide (score st.prev_frames fr > st.kf_threshold)
    let kd2 := if isKF then 0 else kd
    (isKF,
      { st with
        frame_ind := fi
        kf_dist := kd2
        prev_frames := st.prev_frames.drop 1 ++ [fr] })

/-- State of `KeyFrameDetPixelsDist` (pixels_dist.py), over an abstract
histogram type.  `prev_distribution` is the stored 3x256 per-channel HSV
histogram matrix of the previous processed frame. -/
structure PDState (Hist : Type) : Type where
  frame_ind : ℤ
  kf_dist : ℕ
  min_kf_distance : ℕ
  kf_threshold : ℚ
  prev_distribution : Hist
  res : ResolutionR

/-- `KeyFrameDetPixelsDist.set_video_properties(res)` (pixels_dist.py lines
78-85): `self.res.channels = res.channels`, which runs the `Resolution`
channels property setter (and hence its membership validation). -/
def pixelsDistSetVideoProperties {Hist : Type} (st : PDState Hist)
    (res : ResolutionR) : Except DBError (PDState Hist) :=
  match resolutionCheckChannels res.channels with
  | .error e => .error e
  | .ok _ => .ok { st with res := { st.res with channels := res.channels } }

/-- `KeyFrameDetPixelsDist.reset()` (pixels_dist.py lines 87-95):
`prev_distribution = np.zeros((3, 256))`, `frame_ind = -1`,
`kf_dist = min_kf_distance`. -/
def pixelsDistReset {Hist : Type} (zeroHist : Hist) (st : PDState Hist) :
    PDState Hist :=
  { st with
    frame_ind := -1
    kf_dist := st.min_kf_distance
    prev_distribution := zeroHist }

/-- `KeyFrameDetPixelsDist.__call__(new_frame)` (pixels_dist.py lines
97-137).  `hist f` abstracts lines 113-118 (resize, BGR→HSV split, the three
normalized 256-bin histograms); `klAgg fh st.prev_distribution` abstracts
lines 120-121 (per-channel absolute KL divergence against the stored
distribution, summed over channels).  Control flow is exact: increment the
counters; if `kf_dist < min_kf_distance` return `False` early — on this
short-circuit path `prev_distribution` is NOT touched; otherwise compare with
`kf_threshold`, zero `kf_dist` on detection and overwrite
`prev_distribution` with the current histogram. -/
def pixelsDistStep {Frame Hist : Type} (hist : Frame → Hist)
    (klAgg : Hist → Hist → ℚ) (st : PDState Hist) (f : Frame) :
    Bool × PDState Hist :=
  let fi := st.frame_ind + 1
  let kd := st.kf_dist + 1
  if kd < st.min_kf_distance then
    (false, { st with frame_ind := fi, kf_dist := kd })
  else
    let fh := hist f
    let isKF : Bool := decide (klAgg fh st.prev_distribution > st.kf_threshold)
    let kd2 := if isKF then 0 else kd
    (isKF,
      { st with frame_ind := fi, kf_dist := kd2, prev_distribution := fh })

/-- `KeyFrameDetPixelsDist.__init__` construction-time range validations
(pixels_dist.py lines 59-63), in source order: `threshold` in
`[1e-6, 1e10]` (source comment: "hardcoded value, KL-div is unbounded"),
`debug_level` in `[0, 2]`, `processing_res_width` in `[0, 8192]`,
`processing_res_height` in `[0, 4320]`, `min_kf_distance` in `[0, 5000]`.
Python float literals are modelled as exact decimals in `ℚ`. -/
def pixelsDistInitChecks (debug_level : ℤ) (threshold : ℚ) (w h mkd : ℤ) :
    Except DBError Unit :=
  if threshold < mkRat 1 1000000 ∨ threshold > 10000000000 then
    .error .validationError
  else
    match checkValueInRange debug_level 0 2 with
    | .error e => .error e
    | .ok _ =>
      match checkValueInRange w 0 MAX_RESOLUTION_WIDTH with
      | .error e => .error e
      | .ok _ =>
        match checkValueInRange h 0 MAX_RESOLUTION_HEIGHT with
        | .error e => .error e
        | .ok _ => checkValueInRange mkd 0 5000

/-- Streaming semantics of a detector: feed the frames one call at a time,
collecting the per-frame boolean decisions (the usage pattern documented in
`key_frames_det_base.py`). -/
def runDet {Frame τ : Type} (step : τ → Frame → Bool × τ) :
    τ → List Frame → List Bool
  | _, [] => []
  | st, f :: fs => (step st f).1 :: runDet step (step st f).2 fs

/-!
### Blob store (`FileSystemDB`)
-/

/-- One level's mapping table: the rows `(name, fs_id)` of the pandas
DataFrame, in storage order (new rows are concatenated at the end). -/
abbrev MappingTable : Type := List (String × String)

/-- First row of the table whose `name` column equals `name`, returning its
`fs_id` (`mapping_table[mapping_table.name == level]["fs_id"].values[0]`);
`none` when the filtered frame is empty. -/
def findRow : MappingTable → String → Option String
  | [], _ => none
  | (n, fsid) :: rest, name => if n = name then some fsid else findRow rest name

/-- Association-list lookup keyed by relative file-system paths (first match,
mirroring a file system where keys are unique). -/
def alookup {β : Type} : List (List String × β) → List String → Option β
  | [], _ => none
  | (k, v) :: rest, key => if k = key then some v else alookup rest key

/-- Association-list store: overwrite the entry at the key if present,
otherwise append a new entry (a file-system write creates or replaces). -/
def aset {β : Type} : List (List String × β) → List String → β →
    List (List String × β)
  | [], k, v => [(k, v)]
  | (k', v') :: rest, k, v =>
    if k' = k then (k, v) :: rest else (k', v') :: aset rest k v

/-- Observable on-disk state of a `FileSystemDB`: the mapping-table file of
each level directory and the stored blob files, both keyed by their
file-system path relative to `database_path` (a list of `fs_id` components).
-/
structure DBState : Type where
  tables : List (List String × MappingTable)
  files : List (List String × List ℕ)
deriving DecidableEq, Repr

/-- Replace the mapping table stored at file-system path `k`
(`PandasDFIOHandler.df_fs_force_save`: delete-then-rewrite of the whole
table file). -/
def tset (st : DBState) (k : List String) (t : MappingTable) : DBState :=
  { st with tables := aset st.tables k t }

/-- The walk of `FileSystemDB._get_fs_path` (file_system_db.py lines
275-294), with the accumulated file-system path `fsAcc` of the already
translated user-path elements.  For each next element the source calls
`_load_level_mapping_table(level_path_aux)`, which re-resolves the already
walked user prefix (deterministically, to `fsAcc`) and loads the mapping
table at that file-system path — raising `OSError` (here `ioFailure`, from
`load_df`'s `check_file_existence`) when the table file does not exist.  A
lookup miss of the element in the table returns `NullFSPath` for the whole
path, modelled as `none`. -/
def getFsPathAux (st : DBState) : List String → List String →
    Except DBError (Option (List String))
  | fsAcc, [] => .ok (some fsAcc)
  | fsAcc, level :: rest =>
    match alookup st.tables fsAcc with
    | none => .error .ioFailure
    | some mt =>
      match findRow mt level with
      | some fsid => getFsPathAux st (fsAcc ++ [fsid]) rest
      | none => .ok none

/-- `FileSystemDB._get_fs_path(level_path)`: translate a user-facing path
into the file-system path, `none` standing for the `NullFSPath` sentinel. -/
def getFsPath (st : DBState) (levelPath : List String) :
    Except DBError (Option (List String)) :=
  getFsPathAux st [] levelPath

/-- `posixpath.splitext` restricted to plain file names (no path
separators): split off the extension at the last dot, except when every
character before that dot is itself a dot (then there is no extension). -/
def lastIndexOfDot : List Char → Option ℕ
  | [] => none
  | c :: rest =>
    match lastIndexOfDot rest with
    | some i => some (i + 1)
    | none => if c = '.' then some 0 else none

/-- `os.path.splitext(item_name)` for plain names: `(base, ext)`. -/
def splitext (s : String) : String × String :=
  let cs := s.toList
  match lastIndexOfDot cs with
  | none => (s, "")
  | some d =>
    if (cs.take d).all (· = '.') then (s, "")
    else (String.mk (cs.take d), String.mk (cs.drop d))

/-- The id-derivation block of `FileSystemDB._add_item_into_mapping_table`
(file_system_db.py lines 397-409): with `use_hash` the md5 hex digest of the
extension-stripped base name; without, the first `HASH_LENGTH = 32`
characters of the full item name when the name minus extension is longer
than 32 characters, else the base name; the extension is re-appended in both
cases. -/
def deriveFsId (md5 : String → String) (itemName : String) (useHash : Bool) :
    String :=
  let base := (splitext itemName).1
  let ext := (splitext itemName).2
  let fsid :=
    if useHash then md5 base
    else if itemName.length - ext.length > 32 then itemName.take 32
    else base
  fsid ++ ext

/-- `FileSystemDB._add_item_into_mapping_table(level_path, item_name,
use_hash)` (file_system_db.py lines 376-417): load the level's mapping table
(`_load_level_mapping_table` raises on an unresolvable path or a missing
table file), reject a duplicate name, derive the file-system id, concatenate
the new row at the end and force-save the table
(`_update_level_mapping_table` re-resolves the unchanged state to the same
file-system path).  Returns the derived id together with the new state. -/
def addItem (md5 : String → String) (useHash : Bool) (st : DBState)
    (levelPath : List String) (itemName : String) :
    Except DBError (String × DBState) :=
  match getFsPath st levelPath with
  | .error e => .error e
  | .ok none => .error .notFound
  | .ok (some fsp) =>
    match alookup st.tables fsp with
    | none => .error .ioFailure
    | some mt =>
      match findRow mt itemName with
      | some _ => .error .alreadyExists
      | none =>
        let fsid := deriveFsId md5 itemName useHash
        .ok (fsid, tset st fsp (mt ++ [(itemName, fsid)]))

/-- `FileSystemDB.initialize()` (file_system_db.py lines 115-123):
`force_create_folder` wipes the database root, then
`_force_create_mapping_table([])` writes an empty root mapping table. -/
def initDB : DBState :=
  { tables := [([], [])], files := [] }

/-- The body of one iteration of the `force_add_level` loop
(file_system_db.py lines 154-161) for the prefix `done ++ [l]`:
`_level_path_to_abs_fs_path_str` resolves the prefix (its joined string is
non-empty because `database_path` is, so Python truthiness coincides with
"not `NullFSPath`"); an already resolvable prefix is skipped; otherwise the
last element is registered in the parent's table, the directory is created
(`create_folder` raises only if a file occupies that path; otherwise it has
no observable DB-state effect), and an empty mapping table is force-created
at the new level (`_force_create_mapping_table` re-resolves the prefix —
same state, same file-system path — and would raise a `TypeError`, here
`validationError`, if the resolution were `NullFSPath`, via `check_type` in
`_get_absolute_fs_path_str`). -/
def forceAddStep (md5 : String → String) (useHash : Bool) (st : DBState)
    (done : List String) (l : String) : Except DBError DBState :=
  match getFsPath st (done ++ [l]) with
  | .error e => .error e
  | .ok (some _) => .ok st
  | .ok none =>
    match addItem md5 useHash st done l with
    | .error e => .error e
    | .ok (_, st1) =>
      match getFsPath st1 (done ++ [l]) with
      | .error e => .error e
      | .ok none => .error .validationError
      | .ok (some fsp1) =>
        match alookup st1.files fsp1 with
        | some _ => .error .ioFailure
        | none => .ok (tset st1 fsp1 [])

/-- The loop of `FileSystemDB.force_add_level(new_level_path, use_hash)`
(file_system_db.py lines 142-161), iterating over the user path's prefixes:
`done` is the already processed prefix, `todo` the remaining elements. -/
def forceAddAux (md5 : String → String) (useHash : Bool) (st : DBState)
    (done todo : List String) : Except DBError DBState :=
  match todo with
  | [] => .ok st
  | l :: rest =>
    match forceAddStep md5 useHash st done l with
    | .error e => .error e
    | .ok st1 => forceAddAux md5 useHash st1 (done ++ [l]) rest

/-- `FileSystemDB.force_add_level(new_level_path, use_hash)`. -/
def forceAddLevel (md5 : String → String) (useHash : Bool) (st : DBState)
    (newLevelPath : List String) : Except DBError DBState :=
  forceAddAux md5 useHash st [] newLevelPath

/-- `FileSystemDB.add_file(level_path, file, file_name_with_ext, use_hash)`
(file_system_db.py lines 193-225): resolve the level (raise `OSError` on the
sentinel), register the file name in the level's mapping table, then write
the bytes at the level's file-system path extended with the derived id
(`open(..., "wb")` creates or overwrites). -/
def addFile (md5 : String → String) (st : DBState) (levelPath : List String)
    (file : List ℕ) (fileNameWithExt : String) (useHash : Bool) :
    Except DBError DBState :=
  match getFsPath st levelPath with
  | .error e => .error e
  | .ok none => .error .notFound
  | .ok (some fsp) =>
    match addItem md5 useHash st levelPath fileNameWithExt with
    | .error e => .error e
    | .ok (fsid, st1) =>
      .ok { st1 with files := aset st1.files (fsp ++ [fsid]) file }

/-- `FileSystemDB.get_file(file_path)` (file_system_db.py lines 255-273):
resolve the path (raise `OSError` on the sentinel) and read the bytes
(`FSIOHandler.get_file` raises through `check_file_existence` when no file
is stored there). -/
def getFile (st : DBState) (filePath : List String) :
    Except DBError (List ℕ) :=
  match getFsPath st filePath with
  | .error e => .error e
  | .ok none => .error .notFound
  | .ok (some fsp) =>
    match alookup st.files fsp with
    | none => .error .ioFailure
    | some bs => .ok bs

/-- `FileSystemDB.get_level_content(level_path)` (file_system_db.py lines
125-140): the `name` column of the level's mapping table; any `OSError` from
loading the table is re-raised as `OSError` with a new message (the error
kind is unchanged, so the model propagates it). -/
def getLevelContent (st : DBState) (levelPath : List String) :
    Except DBError (List String) :=
  match getFsPath st levelPath with
  | .error e => .error e
  | .ok none => .error .notFound
  | .ok (some fsp) =>
    match alookup st.tables fsp with
    | none => .error .ioFailure
    | some mt => .ok (mt.map Prod.fst)

/-- Decidable rendering of claim C4's side condition "every mapping-table
entry's `fs_id` exists on disk": each registered entry of each level points
at an existing directory-with-table or at an existing file. -/
def diskCompleteB (st : DBState) : Bool :=
  st.tables.all fun kt =>
    kt.2.all fun row =>
      (alookup st.tables (kt.1 ++ [row.2])).isSome ||
      (alookup st.files (kt.1 ++ [row.2])).isSome

/-- Decidable per-path well-formedness used by the amended C4: whenever the
user path resolves, the mapping table at the resolved file-system path
exists on disk.  (Vacuously true when resolution errors or misses.) -/
def tableCheck (st : DBState) (q : List String) : Bool :=
  match getFsPath st q with
  | .ok (some fsp) => (alookup st.tables fsp).isSome
  | _ => true

/-- Decidable invariant: every mapping table on disk has pairwise distinct
names (every reachable store state satisfies it; duplicate names are
rejected at registration time). -/
def countOkB (st : DBState) : Bool :=
  st.tables.all fun kt => decide (kt.2.map Prod.fst).Nodup

/-!
### Basic lemmas about the store primitives
-/

theorem alookup_aset {β : Type} (l : List (List String × β))
    (k key : List String) (t : β) :
    alookup (aset l k t) key = if key = k then some t else alookup l key := by
  induction l with
  | nil =>
    simp only [aset, alookup]
    by_cases h : k = key
    · subst h; simp
    · have h' : ¬key = k := fun hh => h hh.symm
      simp [h, h']
  | cons hd tl ih =>
    obtain ⟨k1, v1⟩ := hd
    simp only [aset]
    by_cases h1 : k1 = k
    · subst h1
      simp only [if_pos rfl, alookup]
      by_cases h2 : k1 = key
      · subst h2; simp
      · have h2' : ¬key = k1 := fun hh => h2 hh.symm
        simp [h2, h2']
    · rw [if_neg h1]
      simp only [alookup]
      by_cases h2 : k1 = key
      · subst h2
        have h1' : ¬k1 = k := h1
        simp [alookup, h1']
      · simp [h2, ih]

theorem mem_of_alookup {β : Type} :
    ∀ (l : List (List String × β)) (k : List String) (v : β),
      alookup l k = some v → (k, v) ∈ l
  | [], k, v, h => by simp [alookup] at h
  | (k1, v1) :: tl, k, v, h => by
    simp only [alookup] at h
    by_cases h1 : k1 = k
    · rw [if_pos h1] at h
      injection h with h2
      subst h1
      subst h2
      exact .head _
    · rw [if_neg h1] at h
      exact .tail _ (mem_of_alookup tl k v h)

theorem mem_aset {β : Type} :
    ∀ (l : List (List String × β)) (k : List String) (t : β)
      (p : List String × β), p ∈ aset l k t → p ∈ l ∨ p = (k, t)
  | [], k, t, p, h => by
    simp [aset] at h
    exact Or.inr h
  | (k1, v1) :: tl, k, t, p, h => by
    simp only [aset] at h
    by_cases h1 : k1 = k
    · rw [if_pos h1] at h
      rcases List.mem_cons.mp h with h2 | h2
      · exact Or.inr h2
      · exact Or.inl (List.mem_cons_of_mem _ h2)
    · rw [if_neg h1] at h
      rcases List.mem_cons.mp h with h2 | h2
      · exact Or.inl (h2 ▸ List.mem_cons_self _ _)
      · rcases mem_aset tl k t p h2 with h3 | h3
        · exact Or.inl (List.mem_cons_of_mem _ h3)
        · exact Or.inr h3

theorem findRow_append_of_some :
    ∀ (mt mt2 : MappingTable) (n v : String),
      findRow mt n = some v → findRow (mt ++ mt2) n = some v
  | [], _, n, v, h => by simp [findRow] at h
  | (n1, v1) :: tl, mt2, n, v, h => by
    simp only [findRow] at h
    rw [List.cons_append]
    simp only [findRow]
    by_cases h1 : n1 = n
    · rwa [if_pos h1] at h ⊢
    · rw [if_neg h1] at h ⊢
      exact findRow_append_of_some tl mt2 n v h

theorem findRow_append_self :
    ∀ (mt : MappingTable) (n v : String),
      findRow mt n = none → findRow (mt ++ [(n, v)]) n = some v
  | [], n, v, _ => by simp [findRow]
  | (n1, v1) :: tl, n, v, h => by
    simp only [findRow] at h
    rw [List.cons_append]
    simp only [findRow]
    by_cases h1 : n1 = n
    · rw [if_pos h1] at h
      cases h
    · rw [if_neg h1] at h ⊢
      exact findRow_append_self tl n v h

theorem findRow_none_iff :
    ∀ (mt : MappingTable) (n : String),
      findRow mt n = none ↔ n ∉ mt.map Prod.fst
  | [], n => by simp [findRow]
  | (n1, v1) :: tl, n => by
    simp only [findRow]
    by_cases h1 : n1 = n
    · simp [h1]
    · have h2 : ¬n = n1 := fun hh => h1 hh.symm
      simp only [if_neg h1, List.map_cons, List.mem_cons]
      rw [findRow_none_iff tl n]
      tauto

theorem mem_of_findRow_some (mt : MappingTable) (n v : String)
    (h : findRow mt n = some v) : n ∈ mt.map Prod.fst := by
  by_contra hmem
  rw [← findRow_none_iff] at hmem
  rw [hmem] at h
  cases h

/-!
### Lemmas about the resolution walk
-/

theorem getFsPathAux_len (st : DBState) (q : List String) :
    ∀ (acc f : List String), getFsPathAux st acc q = .ok (some f) →
      f.length = acc.length + q.length := by
  induction q with
  | nil =>
    intro acc f h
    rw [getFsPathAux] at h
    injection h with h2
    injection h2 with h3
    subst h3
    simp
  | cons l rest ih =>
    intro acc f h
    rw [getFsPathAux] at h
    cases hmt : alookup st.tables acc with
    | none => simp only [hmt] at h; cases h
    | some mt =>
      simp only [hmt] at h
      cases hrow : findRow mt l with
      | none => simp only [hrow] at h; simp at h
      | some fsid =>
        simp only [hrow] at h
        have h2 := ih _ _ h
        simp only [List.length_append, List.length_cons,
          List.length_nil] at h2 ⊢
        omega

theorem getFsPathAux_append_some (st : DBState) (q1 : List String) :
    ∀ (q2 acc f : List String), getFsPathAux st acc q1 = .ok (some f) →
      getFsPathAux st acc (q1 ++ q2) = getFsPathAux st f q2 := by
  induction q1 with
  | nil =>
    intro q2 acc f h
    rw [getFsPathAux] at h
    injection h with h2
    injection h2 with h3
    subst h3
    simp
  | cons l rest ih =>
    intro q2 acc f h
    rw [getFsPathAux] at h
    rw [List.cons_append, getFsPathAux]
    cases hmt : alookup st.tables acc with
    | none => simp only [hmt] at h; cases h
    | some mt =>
      simp only [hmt] at h ⊢
      cases hrow : findRow mt l with
      | none => simp only [hrow] at h; simp at h
      | some fsid =>
        simp only [hrow] at h ⊢
        exact ih _ _ _ h

theorem getFsPathAux_append_inv (st : DBState) (q1 : List String) :
    ∀ (q2 acc f : List String),
      getFsPathAux st acc (q1 ++ q2) = .ok (some f) →
      ∃ g, getFsPathAux st acc q1 = .ok (some g) ∧
        getFsPathAux st g q2 = .ok (some f) := by
  induction q1 with
  | nil =>
    intro q2 acc f h
    exact ⟨acc, rfl, h⟩
  | cons l rest ih =>
    intro q2 acc f h
    rw [List.cons_append, getFsPathAux] at h
    rw [getFsPathAux]
    cases hmt : alookup st.tables acc with
    | none => simp only [hmt] at h; cases h
    | some mt =>
      simp only [hmt] at h ⊢
      cases hrow : findRow mt l with
      | none => simp only [hrow] at h; simp at h
      | some fsid =>
        simp only [hrow] at h ⊢
        exact ih _ _ _ h

theorem getFsPath_take (st : DBState) (q f : List String) (i : ℕ)
    (h : getFsPath st q = .ok (some f)) :
    ∃ g, getFsPath st (q.take i) = .ok (some g) := by
  have hq : q.take i ++ q.drop i = q := List.take_append_drop i q
  rw [getFsPath] at h ⊢
  rw [← hq] at h
  obtain ⟨g, hg, -⟩ := getFsPathAux_append_inv st (q.take i) (q.drop i) [] f h
  exact ⟨g, hg⟩

theorem getFsPathAux_single_some (st : DBState) (fsp : List String)
    (l : String) (f : List String)
    (h : getFsPathAux st fsp [l] = .ok (some f)) :
    ∃ mt fsid, alookup st.tables fsp = some mt ∧ findRow mt l = some fsid ∧
      f = fsp ++ [fsid] := by
  rw [getFsPathAux] at h
  cases hmt : alookup st.tables fsp with
  | none => simp only [hmt] at h; cases h
  | some mt =>
    simp only [hmt] at h
    cases hrow : findRow mt l with
    | none => simp only [hrow] at h; simp at h
    | some fsid =>
      simp only [hrow, getFsPathAux] at h
      injection h with h2
      injection h2 with h3
      exact ⟨mt, fsid, rfl, hrow, h3.symm⟩

theorem getFsPathAux_single_none (st : DBState) (fsp : List String)
    (l : String) (h : getFsPathAux st fsp [l] = .ok none) :
    ∃ mt, alookup st.tables fsp = some mt ∧ findRow mt l = none := by
  rw [getFsPathAux] at h
  cases hmt : alookup st.tables fsp with
  | none => simp only [hmt] at h; cases h
  | some mt =>
    simp only [hmt] at h
    cases hrow : findRow mt l with
    | none => exact ⟨mt, rfl, hrow⟩
    | some fsid => simp only [hrow, getFsPathAux] at h; simp at h

theorem getFsPathAux_tables_append (st : DBState) (k : List String)
    (mt rows : MappingTable) (hk : alookup st.tables k = some mt)
    (q : List String) :
    ∀ (acc f : List String), getFsPathAux st acc q = .ok (some f) →
      getFsPathAux (tset st k (mt ++ rows)) acc q = .ok (some f) := by
  induction q with
  | nil =>
    intro acc f h
    rw [getFsPathAux] at h ⊢
    exact h
  | cons l rest ih =>
    intro acc f h
    rw [getFsPathAux] at h ⊢
    cases hmta : alookup st.tables acc with
    | none => simp only [hmta] at h; cases h
    | some mta =>
      simp only [hmta] at h
      cases hrow : findRow mta l with
      | none => simp only [hrow] at h; simp at h
      | some fsid =>
        simp only [hrow] at h
        have hset : alookup (tset st k (mt ++ rows)).tables acc =
            if acc = k then some (mt ++ rows) else alookup st.tables acc := by
          simp [tset, alookup_aset]
        by_cases hacc : acc = k
        · have hmt2 : mta = mt := by
            rw [hacc, hk] at hmta
            exact (Option.some.inj hmta).symm
          subst hmt2
          simp only [hset, if_pos hacc,
            findRow_append_of_some _ rows _ _ hrow]
          exact ih _ _ h
        · simp only [hset, if_neg hacc, hmta, hrow]
          exact ih _ _ h

theorem getFsPathAux_tset_long (st : DBState) (k : List String)
    (t : MappingTable) (q : List String) :
    ∀ (acc : List String), acc.length + q.length ≤ k.length →
      getFsPathAux (tset st k t) acc q = getFsPathAux st acc q := by
  induction q with
  | nil => intro acc _; rw [getFsPathAux, getFsPathAux]
  | cons l rest ih =>
    intro acc hlen
    rw [getFsPathAux, getFsPathAux]
    have hacc : ¬acc = k := by
      intro hh
      subst hh
      simp only [List.length_cons] at hlen
      omega
    have hset : alookup (tset st k t).tables acc = alookup st.tables acc := by
      simp [tset, alookup_aset, hacc]
    rw [hset]
    cases hmt : alookup st.tables acc with
    | none => simp only [hmt]
    | some mt =>
      simp only [hmt]
      cases hrow : findRow mt l with
      | none => simp only [hrow]
      | some fsid =>
        simp only [hrow]
        refine ih _ ?_
        simp only [List.length_append, List.length_cons,
          List.length_nil] at hlen ⊢
        omega

theorem getFsPathAux_files_irrel (st : DBState)
    (fl : List (List String × List ℕ)) (q : List String) :
    ∀ (acc : List String),
      getFsPathAux { st with files := fl } acc q = getFsPathAux st acc q := by
  induction q with
  | nil => intro acc; rw [getFsPathAux, getFsPathAux]
  | cons l rest ih =>
    intro acc
    rw [getFsPathAux, getFsPathAux]
    cases hmt : alookup st.tables acc with
    | none => simp only [hmt]
    | some mt =>
      simp only [hmt]
      cases hrow : findRow mt l with
      | none => simp only [hrow]
      | some fsid =>
        simp only [hrow]
        exact ih _

/-!
### Lemmas about `force_add_level`
-/

/-- Every mapping table on disk has pairwise distinct names. -/
def TablesNodup (st : DBState) : Prop :=
  ∀ kt ∈ st.tables, (List.map Prod.fst kt.2).Nodup

theorem countOkB_iff (st : DBState) : countOkB st = true ↔ TablesNodup st := by
  simp [countOkB, TablesNodup, List.all_eq_true]

theorem forceAddStep_skip (md5 : String → String) (uh : Bool) (st : DBState)
    (done : List String) (l : String) (f : List String)
    (h : getFsPath st (done ++ [l]) = .ok (some f)) :
    forceAddStep md5 uh st done l = .ok st := by
  simp only [forceAddStep, h]

/-- Case analysis of a successful `forceAddStep` from a state in which the
parent prefix resolves: the prefix was already resolvable and nothing
happened, or the last element was registered in the parent's table and an
empty table was created at the new level. -/
theorem forceAddStep_cases (md5 : String → String) (uh : Bool) (st : DBState)
    (done : List String) (l : String) (st' : DBState) (fspd : List String)
    (hd : getFsPath st done = .ok (some fspd))
    (h : forceAddStep md5 uh st done l = .ok st') :
    (st' = st ∧ ∃ f, getFsPath st (done ++ [l]) = .ok (some f)) ∨
    (∃ mt, alookup st.tables fspd = some mt ∧ findRow mt l = none ∧
      st' = tset (tset st fspd (mt ++ [(l, deriveFsId md5 l uh)]))
        (fspd ++ [deriveFsId md5 l uh]) []) := by
  simp only [forceAddStep] at h
  cases hres : getFsPath st (done ++ [l]) with
  | error e => simp only [hres] at h; cases h
  | ok o =>
    cases o with
    | some f =>
      simp only [hres] at h
      injection h with h2
      exact Or.inl ⟨h2.symm, f, rfl⟩
    | none =>
      simp only [hres] at h
      -- the `addItem` call resolves `done` to `fspd`
      rw [getFsPath] at hd
      simp only [addItem, getFsPath, hd] at h
      cases hmt : alookup st.tables fspd with
      | none => simp only [hmt] at h; cases h
      | some mt =>
        simp only [hmt] at h
        cases hrow : findRow mt l with
        | some v => simp only [hrow] at h; cases h
        | none =>
          simp only [hrow] at h
          -- resolution of `done ++ [l]` in the updated state
          set fsid := deriveFsId md5 l uh with hfsid
          have hlen : fspd.length = done.length :=
            by simpa using getFsPathAux_len st done [] fspd hd
          have hres1 : getFsPath (tset st fspd (mt ++ [(l, fsid)]))
              (done ++ [l]) = .ok (some (fspd ++ [fsid])) := by
            rw [getFsPath]
            have hdone1 : getFsPathAux (tset st fspd (mt ++ [(l, fsid)]))
                [] done = .ok (some fspd) :=
              getFsPathAux_tables_append st fspd mt [(l, fsid)] hmt done [] fspd hd
            rw [getFsPathAux_append_some _ done [l] [] fspd hdone1]
            rw [getFsPathAux]
            have hself : alookup (tset st fspd (mt ++ [(l, fsid)])).tables fspd
                = some (mt ++ [(l, fsid)]) := by
              simp [tset, alookup_aset]
            simp only [hself, findRow_append_self mt l fsid hrow, getFsPathAux]
          rw [getFsPath] at hres1
          simp only [hres1] at h
          cases hfl : alookup (tset st fspd (mt ++ [(l, fsid)])).files
              (fspd ++ [fsid]) with
          | some bs => simp only [hfl] at h; cases h
          | none =>
            simp only [hfl] at h
            injection h with h2
            exact Or.inr ⟨mt, rfl, hrow, h2.symm⟩

/-- A successful `forceAddStep` makes (or confirms) the extended prefix
resolvable. -/
theorem forceAddStep_res (md5 : String → String) (uh : Bool) (st : DBState)
    (done : List String) (l : String) (st' : DBState) (fspd : List String)
    (hd : getFsPath st done = .ok (some fspd))
    (h : forceAddStep md5 uh st done l = .ok st') :
    ∃ f, getFsPath st' (done ++ [l]) = .ok (some f) := by
  rcases forceAddStep_cases md5 uh st done l st' fspd hd h with
    ⟨hst, f, hres⟩ | ⟨mt, hmt, hrow, hst⟩
  · exact ⟨f, hst ▸ hres⟩
  · set fsid := deriveFsId md5 l uh with hfsid
    set st1 := tset st fspd (mt ++ [(l, fsid)]) with hst1
    have hlen : fspd.length = done.length :=
      by simpa using getFsPathAux_len st done [] fspd hd
    have hres1 : getFsPath st1 (done ++ [l]) = .ok (some (fspd ++ [fsid])) := by
      rw [getFsPath]
      have hdone1 : getFsPathAux st1 [] done = .ok (some fspd) :=
        getFsPathAux_tables_append st fspd mt [(l, fsid)] hmt done [] fspd hd
      rw [getFsPathAux_append_some _ done [l] [] fspd hdone1]
      rw [getFsPathAux]
      have hself : alookup st1.tables fspd = some (mt ++ [(l, fsid)]) := by
        simp [hst1, tset, alookup_aset]
      simp only [hself, findRow_append_self mt l fsid hrow, getFsPathAux]
    refine ⟨fspd ++ [fsid], ?_⟩
    rw [hst]
    rw [getFsPath]
    rw [getFsPathAux_tset_long st1 (fspd ++ [fsid]) [] (done ++ [l]) []
      (by simp [hlen])]
    exact hres1

/-- A successful `forceAddStep` preserves the per-table distinct-names
invariant. -/
theorem forceAddStep_nodup (md5 : String → String) (uh : Bool) (st : DBState)
    (done : List String) (l : String) (st' : DBState) (fspd : List String)
    (hd : getFsPath st done = .ok (some fspd))
    (h : forceAddStep md5 uh st done l = .ok st')
    (hc : TablesNodup st) : TablesNodup st' := by
  rcases forceAddStep_cases md5 uh st done l st' fspd hd h with
    ⟨hst, -⟩ | ⟨mt, hmt, hrow, hst⟩
  · exact hst ▸ hc
  · subst hst
    intro kt hkt
    rcases mem_aset _ _ _ _ hkt with hkt1 | hkt1
    · rcases mem_aset _ _ _ _ hkt1 with hkt2 | hkt2
      · exact hc kt hkt2
      · subst hkt2
        have hnd : (List.map Prod.fst mt).Nodup :=
          hc (fspd, mt) (mem_of_alookup _ _ _ hmt)
        have hnotin : l ∉ List.map Prod.fst mt := (findRow_none_iff mt l).mp hrow
        simp only [List.map_append, List.map_cons, List.map_nil]
        refine List.Nodup.append hnd (List.nodup_singleton l) ?_
        intro a ha hb
        exact hnotin ((List.mem_singleton.mp hb) ▸ ha)
    · subst hkt1
      simp

/-- After a successful `forceAddAux` run starting from a state in which the
processed prefix `done` resolves, every prefix of `done ++ todo` resolves in
the final state. -/
theorem forceAddAux_res (md5 : String → String) (uh : Bool)
    (todo : List String) :
    ∀ (st : DBState) (done fspd : List String) (st' : DBState),
      forceAddAux md5 uh st done todo = .ok st' →
      getFsPath st done = .ok (some fspd) →
      ∀ j, j ≤ todo.length →
        ∃ f, getFsPath st' (done ++ todo.take j) = .ok (some f) := by
  induction todo with
  | nil =>
    intro st done fspd st' h hd j hj
    rw [forceAddAux] at h
    injection h with h2
    subst h2
    simp only [List.length_nil, Nat.le_zero] at hj
    subst hj
    exact ⟨fspd, by simpa using hd⟩
  | cons l rest ih =>
    intro st done fspd st' h hd j hj
    rw [forceAddAux] at h
    cases hstep : forceAddStep md5 uh st done l with
    | error e => simp only [hstep] at h; cases h
    | ok st1 =>
      simp only [hstep] at h
      obtain ⟨f1, hres1⟩ := forceAddStep_res md5 uh st done l st1 fspd hd hstep
      have ihall := ih st1 (done ++ [l]) f1 st' h hres1
      cases j with
      | zero =>
        obtain ⟨f2, hf2⟩ := ihall 0 (by omega)
        simp only [List.take_zero, List.append_nil] at hf2 ⊢
        obtain ⟨g, hg⟩ := getFsPath_take st' (done ++ [l]) f2 done.length hf2
        rw [List.take_left] at hg
        exact ⟨g, hg⟩
      | succ j' =>
        obtain ⟨f2, hf2⟩ := ihall j'
          (by simp only [List.length_cons] at hj; omega)
        refine ⟨f2, ?_⟩
        rw [List.take_succ_cons, List.append_cons]
        exact hf2

/-- `forceAddAux` is a no-op when every extended prefix already resolves. -/
theorem forceAddAux_noop (md5 : String → String) (uh : Bool)
    (todo : List String) :
    ∀ (st : DBState) (done : List String),
      (∀ j, j ≤ todo.length →
        ∃ f, getFsPath st (done ++ todo.take j) = .ok (some f)) →
      forceAddAux md5 uh st done todo = .ok st := by
  induction todo with
  | nil => intro st done _; rw [forceAddAux]
  | cons l rest ih =>
    intro st done hall
    rw [forceAddAux]
    obtain ⟨f1, hf1⟩ := hall 1 (by simp)
    rw [List.take_succ_cons, List.take_zero] at hf1
    have hstep := forceAddStep_skip md5 uh st done l f1 hf1
    simp only [hstep]
    refine ih st (done ++ [l]) ?_
    intro j hj
    obtain ⟨f2, hf2⟩ := hall (j + 1)
      (by simp only [List.length_cons]; omega)
    refine ⟨f2, ?_⟩
    rw [List.take_succ_cons, List.append_cons] at hf2
    exact hf2

/-- A successful `forceAddAux` run preserves the distinct-names invariant. -/
theorem forceAddAux_nodup (md5 : String → String) (uh : Bool)
    (todo : List String) :
    ∀ (st : DBState) (done fspd : List String) (st' : DBState),
      forceAddAux md5 uh st done todo = .ok st' →
      getFsPath st done = .ok (some fspd) →
      TablesNodup st → TablesNodup st' := by
  induction todo with
  | nil =>
    intro st done fspd st' h hd hc
    rw [forceAddAux] at h
    injection h with h2
    exact h2 ▸ hc
  | cons l rest ih =>
    intro st done fspd st' h hd hc
    rw [forceAddAux] at h
    cases hstep : forceAddStep md5 uh st done l with
    | error e => simp only [hstep] at h; cases h
    | ok st1 =>
      simp only [hstep] at h
      obtain ⟨f1, hres1⟩ := forceAddStep_res md5 uh st done l st1 fspd hd hstep
      exact ih st1 (done ++ [l]) f1 st' h hres1
        (forceAddStep_nodup md5 uh st done l st1 fspd hd hstep hc)

/-!
### Claim C1
-/

/-- C1: blob store round-trip.  For every byte string `data`, any md5
function and either value of `use_hash` in each call: after `initialize()`,
`force_add_level(["a","b"])` and `add_file(["a","b"], data, "f.txt")`, the
call `get_file(["a","b","f.txt"])` returns exactly `data`. -/
theorem C1_roundtrip (md5 : String → String) (uh1 uh2 : Bool) (data : List ℕ) :
    ∃ st1 st2,
      forceAddLevel md5 uh1 initDB ["a", "b"] = .ok st1 ∧
      addFile md5 st1 ["a", "b"] data "f.txt" uh2 = .ok st2 ∧
      getFile st2 ["a", "b", "f.txt"] = .ok data := by
  refine ⟨⟨[([], [("a", deriveFsId md5 "a" uh1)]),
            ([deriveFsId md5 "a" uh1], [("b", deriveFsId md5 "b" uh1)]),
            ([deriveFsId md5 "a" uh1, deriveFsId md5 "b" uh1], [])], []⟩,
         ⟨[([], [("a", deriveFsId md5 "a" uh1)]),
            ([deriveFsId md5 "a" uh1], [("b", deriveFsId md5 "b" uh1)]),
            ([deriveFsId md5 "a" uh1, deriveFsId md5 "b" uh1],
              [("f.txt", deriveFsId md5 "f.txt" uh2)])],
           [([deriveFsId md5 "a" uh1, deriveFsId md5 "b" uh1,
              deriveFsId md5 "f.txt" uh2], data)]⟩, ?_, ?_, ?_⟩
  · simp [forceAddLevel, forceAddAux, forceAddStep, addItem, getFsPath,
      getFsPathAux, alookup, findRow, tset, aset, initDB]
  · simp [addFile, addItem, getFsPath, getFsPathAux, alookup, findRow,
      tset, aset]
  · simp [getFile, getFsPath, getFsPathAux, alookup, findRow]

/-!
### Hysteresis lemmas shared by the detector variants
-/

/-- If any call in a run returns `true` at position `p`, the hysteresis
counter at the start of the run plus the number of elapsed calls reaches the
minimum distance. -/
theorem runDet_true_le {Frame τ : Type} (step : τ → Frame → Bool × τ)
    (dist mkd : τ → ℕ)
    (H1 : ∀ st f, mkd (step st f).2 = mkd st)
    (H2 : ∀ st f, (step st f).1 = true →
      dist (step st f).2 = 0 ∧ mkd st ≤ dist st + 1)
    (H3 : ∀ st f, (step st f).1 = false →
      dist (step st f).2 = dist st + 1) :
    ∀ (fs : List Frame) (st : τ) (p : ℕ),
      (runDet step st fs).get? p = some true → mkd st ≤ dist st + p + 1 := by
  intro fs
  induction fs with
  | nil => intro st p h; rw [runDet] at h; simp at h
  | cons f rest ih =>
    intro st p h
    rw [runDet] at h
    cases p with
    | zero =>
      rw [List.get?_cons_zero] at h
      injection h with h2
      exact (H2 st f h2).2.trans (by omega)
    | succ p' =>
      rw [List.get?_cons_succ] at h
      have hrec := ih (step st f).2 p' h
      rw [H1 st f] at hrec
      cases hb : (step st f).1 with
      | true =>
        have := (H2 st f hb).1
        omega
      | false =>
        have := H3 st f hb
        omega

/-- Two `true` outputs of a run are at least the minimum key-frame distance
apart. -/
theorem runDet_gap {Frame τ : Type} (step : τ → Frame → Bool × τ)
    (dist mkd : τ → ℕ)
    (H1 : ∀ st f, mkd (step st f).2 = mkd st)
    (H2 : ∀ st f, (step st f).1 = true →
      dist (step st f).2 = 0 ∧ mkd st ≤ dist st + 1)
    (H3 : ∀ st f, (step st f).1 = false →
      dist (step st f).2 = dist st + 1) :
    ∀ (fs : List Frame) (st : τ) (i j : ℕ), i < j →
      (runDet step st fs).get? i = some true →
      (runDet step st fs).get? j = some true → mkd st ≤ j - i := by
  intro fs
  induction fs with
  | nil => intro st i j _ hi _; rw [runDet] at hi; simp at hi
  | cons f rest ih =>
    intro st i j hij hi hj
    rw [runDet] at hi hj
    cases i with
    | zero =>
      rw [List.get?_cons_zero] at hi
      injection hi with hi2
      obtain ⟨j', rfl⟩ : ∃ j', j = j' + 1 := ⟨j - 1, by omega⟩
      rw [List.get?_cons_succ] at hj
      have htl := runDet_true_le step dist mkd H1 H2 H3 rest (step st f).2 j' hj
      rw [H1 st f] at htl
      have := (H2 st f hi2).1
      omega
    | succ i' =>
      obtain ⟨j', rfl⟩ : ∃ j', j = j' + 1 := ⟨j - 1, by omega⟩
      rw [List.get?_cons_succ] at hi hj
      have := ih (step st f).2 i' j' (by omega) hi hj
      rw [H1 st f] at this
      omega

theorem framesRatioStep_mkd {Frame : Type} (resize : Frame → Frame)
    (score : List Frame → Frame → ℚ) (st : FRState Frame) (f : Frame) :
    ((framesRatioStep resize score st f).2).min_kf_distance =
      st.min_kf_distance := by
  rw [framesRatioStep]
  by_cases hc : st.kf_dist + 1 < st.min_kf_distance <;> simp [hc]

theorem framesRatioStep_true {Frame : Type} (resize : Frame → Frame)
    (score : List Frame → Frame → ℚ) (st : FRState Frame) (f : Frame)
    (h : (framesRatioStep resize score st f).1 = true) :
    ((framesRatioStep resize score st f).2).kf_dist = 0 ∧
      st.min_kf_distance ≤ st.kf_dist + 1 := by
  rw [framesRatioStep] at h ⊢
  by_cases hc : st.kf_dist + 1 < st.min_kf_distance
  · simp [hc] at h
  · simp only [hc, if_false, decide_eq_true_eq] at h ⊢
    refine ⟨?_, by omega⟩
    simp [h]

theorem framesRatioStep_false {Frame : Type} (resize : Frame → Frame)
    (score : List Frame → Frame → ℚ) (st : FRState Frame) (f : Frame)
    (h : (framesRatioStep resize score st f).1 = false) :
    ((framesRatioStep resize score st f).2).kf_dist = st.kf_dist + 1 := by
  rw [framesRatioStep] at h ⊢
  by_cases hc : st.kf_dist + 1 < st.min_kf_distance
  · simp [hc]
  · simp only [hc, if_false, decide_eq_false_iff_not] at h ⊢
    simp [h]

theorem pixelsDistStep_mkd {Frame Hist : Type} (hist : Frame → Hist)
    (klAgg : Hist → Hist → ℚ) (st : PDState Hist) (f : Frame) :
    ((pixelsDistStep hist klAgg st f).2).min_kf_distance =
      st.min_kf_distance := by
  rw [pixelsDistStep]
  by_cases hc : st.kf_dist + 1 < st.min_kf_distance <;> simp [hc]

theorem pixelsDistStep_true {Frame Hist : Type} (hist : Frame → Hist)
    (klAgg : Hist → Hist → ℚ) (st : PDState Hist) (f : Frame)
    (h : (pixelsDistStep hist klAgg st f).1 = true) :
    ((pixelsDistStep hist klAgg st f).2).kf_dist = 0 ∧
      st.min_kf_distance ≤ st.kf_dist + 1 := by
  rw [pixelsDistStep] at h ⊢
  by_cases hc : st.kf_dist + 1 < st.min_kf_distance
  · simp [hc] at h
  · simp only [hc, if_false, decide_eq_true_eq] at h ⊢
    refine ⟨?_, by omega⟩
    simp [h]

theorem pixelsDistStep_false {Frame Hist : Type} (hist : Frame → Hist)
    (klAgg : Hist → Hist → ℚ) (st : PDState Hist) (f : Frame)
    (h : (pixelsDistStep hist klAgg st f).1 = false) :
    ((pixelsDistStep hist klAgg st f).2).kf_dist = st.kf_dist + 1 := by
  rw [pixelsDistStep] at h ⊢
  by_cases hc : st.kf_dist + 1 < st.min_kf_distance
  · simp [hc]
  · simp only [hc, if_false, decide_eq_false_iff_not] at h ⊢
    simp [h]

/-!
### Claim C2
-/

/-- C2: for the two variants declaring `min_kf_distance` (`FramesRatio` and
`PixelsDist`), for every `m ≤ 5000` and every run from a
constructed-or-reset state (`kf_dist = min_kf_distance = m`): two calls that
both return `true` are at least `m` frame positions apart, and the very
first call is never short-circuited by the hysteresis — its decision is
exactly the threshold comparison of the numeric score. -/
theorem C2_hysteresis {Frame Hist : Type} (resize : Frame → Frame)
    (score : List Frame → Frame → ℚ) (hist : Frame → Hist)
    (klAgg : Hist → Hist → ℚ) (stR : FRState Frame) (stP : PDState Hist)
    (m : ℕ) (fs gs : List Frame) (i j k l2 : ℕ)
    (hm : m ≤ 5000)
    (hR1 : stR.min_kf_distance = m) (hR2 : stR.kf_dist = m)
    (hP1 : stP.min_kf_distance = m) (hP2 : stP.kf_dist = m) :
    ((runDet (framesRatioStep resize score) stR fs).get? i = some true →
     (runDet (framesRatioStep resize score) stR fs).get? j = some true →
     i < j → m ≤ j - i) ∧
    ((runDet (pixelsDistStep hist klAgg) stP gs).get? k = some true →
     (runDet (pixelsDistStep hist klAgg) stP gs).get? l2 = some true →
     k < l2 → m ≤ l2 - k) ∧
    (∀ f, (framesRatioStep resize score stR f).1 = true ↔
      score stR.prev_frames (resize f) > stR.kf_threshold) ∧
    (∀ g, (pixelsDistStep hist klAgg stP g).1 = true ↔
      klAgg (hist g) stP.prev_distribution > stP.kf_threshold) := by
  refine ⟨?_, ?_, ?_, ?_⟩
  · intro hi hj hij
    have := runDet_gap (framesRatioStep resize score) FRState.kf_dist
      FRState.min_kf_distance
      (fun st f => framesRatioStep_mkd resize score st f)
      (fun st f h => framesRatioStep_true resize score st f h)
      (fun st f h => framesRatioStep_false resize score st f h)
      fs stR i j hij hi hj
    omega
  · intro hk hl hkl
    have := runDet_gap (pixelsDistStep hist klAgg) PDState.kf_dist
      PDState.min_kf_distance
      (fun st f => pixelsDistStep_mkd hist klAgg st f)
      (fun st f h => pixelsDistStep_true hist klAgg st f h)
      (fun st f h => pixelsDistStep_false hist klAgg st f h)
      gs stP k l2 hkl hk hl
    omega
  · intro f
    rw [framesRatioStep]
    have hc : ¬(stR.kf_dist + 1 < stR.min_kf_distance) := by omega
    simp [hc]
  · intro g
    rw [pixelsDistStep]
    have hc : ¬(stP.kf_dist + 1 < stP.min_kf_distance) := by omega
    simp [hc]

/-- Closed instance of C2: minimum distance 2, an always-above-threshold
score, three frames; the run is `[true, false, true]` and the two `true`
outputs are 2 apart; the first call's decision equals the score
comparison. -/
theorem C2_hysteresis_witness :
    (2 : ℕ) ≤ 2 - 0 ∧
      ((framesRatioStep (fun u : Unit => u) (fun _ _ => (1 : ℚ))
        ⟨-1, 2, 2, 0, 1, [()], ⟨100, 100, 3⟩⟩ ()).1 = true ↔
        (1 : ℚ) > 0) := by
  have h := @C2_hysteresis Unit Unit (fun u => u)
    (fun _ _ => (1 : ℚ)) (fun _ => ()) (fun _ _ => (1 : ℚ))
    ⟨-1, 2, 2, 0, 1, [()], ⟨100, 100, 3⟩⟩ ⟨-1, 2, 2, 0, (), ⟨100, 100, 3⟩⟩
    2 [(), (), ()] [(), (), ()] 0 2 0 2 (by decide) rfl rfl rfl rfl
  exact ⟨h.1 (by decide) (by decide) (by decide), h.2.2.1 ()⟩

/-!
### Claim C3
-/

/-- C3 counterexample: a `PixelsDist` call on the hysteresis short-circuit
path (`kf_dist = 0` right after a key frame, `min_kf_distance = 2`) leaves
`prev_distribution` unchanged (`0`), while the current frame's histogram is
`1` — so the stored previous distribution is NOT replaced on every call. -/
theorem C3_counterexample :
    (pixelsDistStep (fun _ : Unit => (1 : ℕ)) (fun _ _ => (0 : ℚ))
      { frame_ind := 0, kf_dist := 0, min_kf_distance := 2, kf_threshold := 0,
        prev_distribution := 0, res := ⟨100, 100, 3⟩ } ()).2.prev_distribution
      ≠ (1 : ℕ) := by decide

/-- C3 amended: `prev_distribution` is replaced by the current frame's
histogram exactly on the calls that do not take the hysteresis
short-circuit path; a short-circuited call leaves it unchanged. -/
theorem C3_amended {Frame Hist : Type} (hist : Frame → Hist)
    (klAgg : Hist → Hist → ℚ) (st : PDState Hist) (f : Frame) :
    (pixelsDistStep hist klAgg st f).2.prev_distribution =
      if st.kf_dist + 1 < st.min_kf_distance then st.prev_distribution
      else hist f := by
  rw [pixelsDistStep]
  by_cases hc : st.kf_dist + 1 < st.min_kf_distance <;> simp [hc]

/-!
### Claim C6
-/

/-- C6: evaluation of the embedded `Resolution` constructor at the failing
input — height 5000 is accepted (the height setter compares against
`MAX_RESOLUTION_WIDTH = 8192`), although the claim (and the constant
`MAX_RESOLUTION_HEIGHT = 4320`, used for height validation elsewhere in the
code base) requires heights above 4320 to be rejected. -/
theorem C6_height_code_eval :
    mkResolution 100 5000 3 =
      .ok { width := 100, height := 5000, channels := 3 } ∧
    MAX_RESOLUTION_HEIGHT < 5000 := by decide

/-!
### Claim C7
-/

/-- C7 counterexample: the divergence threshold `2 * 10^10` is at (in fact
far above) the enforced lower bound, yet `KeyFrameDetPixelsDist`
construction rejects it — the threshold check has the hardcoded upper bound
`1e10`, so the threshold is not unbounded above. -/
theorem C7_counterexample :
    (1 / 1000000 : ℚ) ≤ 20000000000 ∧
    pixelsDistInitChecks 0 20000000000 100 100 0 =
      .error .validationError := by
  constructor
  · norm_num
  · decide

/-- C7 amended: with otherwise-valid parameters, `KeyFrameDetPixelsDist`
construction succeeds exactly for thresholds in the closed interval
`[1e-6, 1e10]` — a lower and an upper bound are both enforced. -/
theorem C7_amended (t : ℚ) :
    pixelsDistInitChecks 0 t 100 100 0 = .ok () ↔
      1 / 1000000 ≤ t ∧ t ≤ 10000000000 := by
  have hmk : mkRat 1 1000000 = (1 / 1000000 : ℚ) := by
    rw [Rat.mkRat_eq_div]
    norm_num
  have hval : pixelsDistInitChecks 0 t 100 100 0 =
      if t < 1 / 1000000 ∨ t > 10000000000 then .error .validationError
      else .ok () := by
    rw [pixelsDistInitChecks, hmk]
    by_cases h : t < 1 / 1000000 ∨ t > 10000000000
    · rw [if_pos h, if_pos h]
    · rw [if_neg h, if_neg h]
      decide
  rw [hval]
  by_cases h : t < 1 / 1000000 ∨ t > 10000000000
  · rw [if_pos h]
    constructor
    · intro hh; cases hh
    · rintro ⟨h1, h2⟩
      rcases h with h | h
      · exact absurd h1 (not_le.mpr h)
      · exact absurd h2 (not_le.mpr h)
  · rw [if_neg h]
    push_neg at h
    exact ⟨fun _ => ⟨h.1, h.2⟩, fun _ => rfl⟩

/-!
### Claim C8
-/

/-- C8 counterexample: `KeyFrameDetFramesRatio.set_video_properties` takes
no resolution argument and is a no-op: called on a state whose rolling
window is still unallocated (`prev_frames = []`) it allocates nothing and
stores nothing — the whole state is returned unchanged. -/
theorem C8_counterexample :
    framesRatioSetVideoProperties
      { frame_ind := -1, kf_dist := 0, min_kf_distance := 0,
        kf_threshold := 0, max_temporal_lag := 1,
        prev_frames := ([] : List Unit), res := ⟨100, 100, 3⟩ } =
      { frame_ind := -1, kf_dist := 0, min_kf_distance := 0,
        kf_threshold := 0, max_temporal_lag := 1, prev_frames := [],
        res := ⟨100, 100, 3⟩ } := rfl

/-- C8 amended: `FramesDiff.set_video_properties(res)` allocates the
previous-frame buffer with shape `(height, width, channels)` of the given
true resolution; `PixelsDist.set_video_properties(res)` only copies the
channel count into its stored processing resolution (width, height and the
rolling distribution state are untouched); `FramesRatio`'s override takes
no resolution argument and is a no-op (its rolling state is allocated by
`reset()` at construction time instead). -/
theorem C8_amended {Frame Hist : Type} (stF : FDState) (stP : PDState Hist)
    (stR : FRState Frame) (res : ResolutionR)
    (hc : res.channels ∈ [-1, 1, 3, 4]) :
    (framesDiffSetVideoProperties stF res).prev_frame =
      some (res.height, res.width, res.channels) ∧
    (∃ stP', pixelsDistSetVideoProperties stP res = .ok stP' ∧
      stP'.res.channels = res.channels ∧ stP'.res.width = stP.res.width ∧
      stP'.res.height = stP.res.height ∧
      stP'.prev_distribution = stP.prev_distribution) ∧
    framesRatioSetVideoProperties stR = stR := by
  refine ⟨rfl, ?_, rfl⟩
  rw [pixelsDistSetVideoProperties]
  have hch : resolutionCheckChannels res.channels = .ok () := by
    rw [resolutionCheckChannels, checkValueInList, if_pos hc]
  rw [hch]
  exact ⟨_, rfl, rfl, rfl, rfl, rfl⟩

/-- Closed instance of C8 (amended): the `FramesDiff` conjunct at a concrete
resolution. -/
theorem C8_amended_witness :
    (framesDiffSetVideoProperties ⟨none⟩ ⟨100, 100, 3⟩).prev_frame =
      some (100, 100, 3) := by
  have h := @C8_amended Unit Unit ⟨none⟩
    ⟨-1, 0, 0, 0, (), ⟨1, 1, -1⟩⟩ ⟨-1, 0, 0, 0, 1, [], ⟨1, 1, -1⟩⟩
    ⟨100, 100, 3⟩ (by decide)
  exact h.1

/-!
### Claim C9
-/

/-- C9: registering an item name that already exists in a level's mapping
table fails with the already-exists error kind (the raise happens before
any mutation, so the table is left unchanged — an error result carries no
successor state). -/
theorem C9_duplicate (md5 : String → String) (uh : Bool) (st : DBState)
    (lp : List String) (name v : String) (fsp : List String)
    (mt : MappingTable)
    (h1 : getFsPath st lp = .ok (some fsp))
    (h2 : alookup st.tables fsp = some mt)
    (h3 : findRow mt name = some v) :
    addItem md5 uh st lp name = .error .alreadyExists := by
  simp only [addItem, h1, h2, h3]

/-- Closed instance of C9: re-registering the name `"a"` at the root level
of a store that already maps it. -/
theorem C9_duplicate_witness :
    addItem (fun _ => "") false ⟨[([], [("a", "a")])], []⟩ [] "a" =
      .error .alreadyExists :=
  C9_duplicate (fun _ => "") false ⟨[([], [("a", "a")])], []⟩ [] "a" "a" []
    [("a", "a")] (by decide) (by decide) (by decide)

/-!
### Claim C4
-/

/-- C4 counterexample: build a store (initialize, force-add level `"a"`,
add file `"f.txt"` under it, all with `use_hash = false`) in which every
mapping-table entry's `fs_id` exists on disk, and resolve the user path
`["a", "f.txt", "x"]`: every walked element has an entry at its level, but
the walk descends through the file entry `"f.txt"`, whose level has no
mapping table on disk — resolution raises (`OSError` from the table load)
instead of returning the sentinel. -/
theorem C4_counterexample :
    forceAddLevel (fun _ => "") false initDB ["a"] =
      .ok ⟨[([], [("a", "a")]), (["a"], [])], []⟩ ∧
    addFile (fun _ => "") ⟨[([], [("a", "a")]), (["a"], [])], []⟩ ["a"] [7]
        "f.txt" false =
      .ok ⟨[([], [("a", "a")]), (["a"], [("f.txt", "f.txt")])],
        [(["a", "f.txt"], [7])]⟩ ∧
    diskCompleteB ⟨[([], [("a", "a")]), (["a"], [("f.txt", "f.txt")])],
        [(["a", "f.txt"], [7])]⟩ = true ∧
    getFsPath ⟨[([], [("a", "a")]), (["a"], [("f.txt", "f.txt")])],
        [(["a", "f.txt"], [7])]⟩ ["a", "f.txt", "x"] =
      .error .ioFailure := by decide

/-- Bool-valued per-prefix well-formedness of a walk, with the accumulator
exposed (definitionally equal to `tableCheck` at the empty accumulator). -/
def tableCheckAux (st : DBState) (acc q : List String) : Bool :=
  match getFsPathAux st acc q with
  | .ok (some f) => (alookup st.tables f).isSome
  | _ => true

theorem tableCheck_eq_aux (st : DBState) (q : List String) :
    tableCheck st q = tableCheckAux st [] q := rfl

theorem tableCheckAux_walk (st : DBState) (q : List String) :
    ∀ acc : List String,
      (∀ j, j < q.length → tableCheckAux st acc (q.take j) = true) →
      (∃ f, getFsPathAux st acc q = .ok (some f) ∧
        f.length = acc.length + q.length) ∨
      getFsPathAux st acc q = .ok none := by
  induction q with
  | nil =>
    intro acc _
    exact Or.inl ⟨acc, rfl, by simp⟩
  | cons l rest ih =>
    intro acc h
    have h0 := h 0 (by simp)
    rw [List.take_zero, tableCheckAux] at h0
    simp only [getFsPathAux] at h0
    rw [getFsPathAux]
    cases hmt : alookup st.tables acc with
    | none => rw [hmt] at h0; simp at h0
    | some mt =>
      simp only [hmt]
      cases hrow : findRow mt l with
      | none => exact Or.inr rfl
      | some fsid =>
        have htrans : ∀ j, j < rest.length →
            tableCheckAux st (acc ++ [fsid]) (rest.take j) = true := by
          intro j hj
          have hj1 := h (j + 1) (by simp only [List.length_cons]; omega)
          rw [List.take_succ_cons, tableCheckAux] at hj1
          simp only [getFsPathAux, hmt, hrow] at hj1
          rw [tableCheckAux]
          exact hj1
        rcases ih (acc ++ [fsid]) htrans with ⟨f, hf, hlen⟩ | hf
        · refine Or.inl ⟨f, hf, ?_⟩
          simp only [List.length_append, List.length_cons,
            List.length_nil] at hlen ⊢
          omega
        · exact Or.inr hf

/-- C4 amended: whenever each resolvable proper prefix of the user path has
its mapping table on disk, resolution returns either the fully resolved
file-system path (one `fs_id` per user path element, never partial) or the
sentinel for the whole path, and never raises.  Without that condition the
walk can raise: descending through a registered file entry loads a mapping
table that does not exist (see the C4 counterexample). -/
theorem C4_resolution (st : DBState) (q : List String)
    (h : ∀ j, j < q.length → tableCheck st (q.take j) = true) :
    (∃ fsp, getFsPath st q = .ok (some fsp) ∧ fsp.length = q.length) ∨
    getFsPath st q = .ok none := by
  have hax : ∀ j, j < q.length → tableCheckAux st [] (q.take j) = true := by
    intro j hj
    have hh := h j hj
    rwa [tableCheck_eq_aux] at hh
  rcases tableCheckAux_walk st q [] hax with ⟨f, hf, hlen⟩ | hf
  · exact Or.inl ⟨f, hf, by simpa using hlen⟩
  · exact Or.inr hf

/-- Closed instance of C4 (amended) on the freshly initialized store. -/
theorem C4_resolution_witness :
    (∃ fsp, getFsPath initDB ["a"] = .ok (some fsp) ∧
      fsp.length = (["a"] : List String).length) ∨
    getFsPath initDB ["a"] = .ok none :=
  C4_resolution initDB ["a"] (by decide)

/-!
### Claim C5
-/

/-- C5: `force_add_level` is idempotent.  From any store whose mapping
tables have distinct names (an invariant of every reachable store), if
`force_add_level(p)` succeeds producing `st'`, then running it again on
`st'` is a no-op returning `st'` unchanged (every prefix of `p` is already
resolvable), and `get_level_content` on the parent level lists the new
child exactly once. -/
theorem C5_force_add_idem (md5 : String → String) (uh : Bool)
    (st st' : DBState) (p : List String) (hp : p ≠ [])
    (hc : countOkB st = true)
    (h1 : forceAddLevel md5 uh st p = .ok st') :
    forceAddLevel md5 uh st' p = .ok st' ∧
    ∃ names, getLevelContent st' p.dropLast = .ok names ∧
      names.count (p.getLast hp) = 1 := by
  have h0 : getFsPath st [] = .ok (some []) := rfl
  rw [forceAddLevel] at h1
  have hres := forceAddAux_res md5 uh p st [] [] st' h1 h0
  constructor
  · rw [forceAddLevel]
    exact forceAddAux_noop md5 uh p st' [] hres
  · have hnd : TablesNodup st' :=
      forceAddAux_nodup md5 uh p st [] [] st' h1 h0 ((countOkB_iff st).mp hc)
    obtain ⟨fspFull, hfull⟩ := hres p.length le_rfl
    rw [List.nil_append, List.take_length] at hfull
    have hsplit : p.dropLast ++ [p.getLast hp] = p :=
      List.dropLast_append_getLast hp
    rw [← hsplit, getFsPath] at hfull
    obtain ⟨g, hg, hg2⟩ :=
      getFsPathAux_append_inv st' p.dropLast [p.getLast hp] [] fspFull hfull
    obtain ⟨mt, fsid, hmt, hrow, -⟩ :=
      getFsPathAux_single_some st' g (p.getLast hp) fspFull hg2
    have hgp : getFsPath st' p.dropLast = .ok (some g) := by
      rw [getFsPath]
      exact hg
    refine ⟨mt.map Prod.fst, ?_, ?_⟩
    · simp only [getLevelContent, hgp, hmt]
    · have hnodup : (mt.map Prod.fst).Nodup :=
        hnd (g, mt) (mem_of_alookup _ _ _ hmt)
      have hmem : p.getLast hp ∈ mt.map Prod.fst :=
        mem_of_findRow_some mt _ fsid hrow
      exact List.count_eq_one_of_mem hnodup hmem

/-- Closed instance of C5: adding `["a","b"]` to the initialized store once
yields a store on which a second `force_add_level` is the identity, and the
parent level `["a"]` lists `"b"` exactly once. -/
theorem C5_force_add_idem_witness :
    forceAddLevel (fun _ => "") false
      ⟨[([], [("a", "a")]), (["a"], [("b", "b")]), (["a", "b"], [])], []⟩
      ["a", "b"] =
      .ok ⟨[([], [("a", "a")]), (["a"], [("b", "b")]),
        (["a", "b"], [])], []⟩ ∧
    ∃ names, getLevelContent
      ⟨[([], [("a", "a")]), (["a"], [("b", "b")]), (["a", "b"], [])], []⟩
      ["a"] = .ok names ∧ names.count "b" = 1 :=
  C5_force_add_idem (fun _ => "") false initDB
    ⟨[([], [("a", "a")]), (["a"], [("b", "b")]), (["a", "b"], [])], []⟩
    ["a", "b"] (by decide) (by decide) (by decide)

/-!
### Claim C10
-/

set_option maxRecDepth 4000 in
/-- C10: with `use_hash = false`, fs-id derivation is not injective — the
two distinct names below share extension `.txt` and the first 32 characters
of their longer-than-32 base names, so they derive the same fs id.  Adding
both at the same level registers both names in the mapping table, but the
second `add_file` overwrites the first file's stored bytes, and `get_file`
on the FIRST name afterwards returns the SECOND file's bytes `[1]`, not the
originally stored `[0]`. -/
theorem C10_truncation_overwrite :
    ("aaaaaaaaaaaaaaaaaaaaaaaaaaaaaaaaa.txt" : String) ≠ "aaaaaaaaaaaaaaaaaaaaaaaaaaaaaaaab.txt" ∧
    deriveFsId (fun _ => "") "aaaaaaaaaaaaaaaaaaaaaaaaaaaaaaaaa.txt" false =
      deriveFsId (fun _ => "") "aaaaaaaaaaaaaaaaaaaaaaaaaaaaaaaab.txt" false ∧
    forceAddLevel (fun _ => "") false initDB ["L"] =
      .ok ⟨[([], [("L", "L")]), (["L"], [])], []⟩ ∧
    addFile (fun _ => "") ⟨[([], [("L", "L")]), (["L"], [])], []⟩ ["L"] [0]
        "aaaaaaaaaaaaaaaaaaaaaaaaaaaaaaaaa.txt" false =
      .ok ⟨[([], [("L", "L")]), (["L"], [("aaaaaaaaaaaaaaaaaaaaaaaaaaaaaaaaa.txt", "aaaaaaaaaaaaaaaaaaaaaaaaaaaaaaaa.txt")])],
        [(["L", "aaaaaaaaaaaaaaaaaaaaaaaaaaaaaaaa.txt"], [0])]⟩ ∧
    addFile (fun _ => "")
      ⟨[([], [("L", "L")]), (["L"], [("aaaaaaaaaaaaaaaaaaaaaaaaaaaaaaaaa.txt", "aaaaaaaaaaaaaaaaaaaaaaaaaaaaaaaa.txt")])],
        [(["L", "aaaaaaaaaaaaaaaaaaaaaaaaaaaaaaaa.txt"], [0])]⟩ ["L"] [1] "aaaaaaaaaaaaaaaaaaaaaaaaaaaaaaaab.txt" false =
      .ok ⟨[([], [("L", "L")]),
        (["L"], [("aaaaaaaaaaaaaaaaaaaaaaaaaaaaaaaaa.txt", "aaaaaaaaaaaaaaaaaaaaaaaaaaaaaaaa.txt"), ("aaaaaaaaaaaaaaaaaaaaaaaaaaaaaaaab.txt", "aaaaaaaaaaaaaaaaaaaaaaaaaaaaaaaa.txt")])],
        [(["L", "aaaaaaaaaaaaaaaaaaaaaaaaaaaaaaaa.txt"], [1])]⟩ ∧
    getLevelContent ⟨[([], [("L", "L")]),
        (["L"], [("aaaaaaaaaaaaaaaaaaaaaaaaaaaaaaaaa.txt", "aaaaaaaaaaaaaaaaaaaaaaaaaaaaaaaa.txt"), ("aaaaaaaaaaaaaaaaaaaaaaaaaaaaaaaab.txt", "aaaaaaaaaaaaaaaaaaaaaaaaaaaaaaaa.txt")])],
        [(["L", "aaaaaaaaaaaaaaaaaaaaaaaaaaaaaaaa.txt"], [1])]⟩ ["L"] = .ok ["aaaaaaaaaaaaaaaaaaaaaaaaaaaaaaaaa.txt", "aaaaaaaaaaaaaaaaaaaaaaaaaaaaaaaab.txt"] ∧
    getFile ⟨[([], [("L", "L")]),
        (["L"], [("aaaaaaaaaaaaaaaaaaaaaaaaaaaaaaaaa.txt", "aaaaaaaaaaaaaaaaaaaaaaaaaaaaaaaa.txt"), ("aaaaaaaaaaaaaaaaaaaaaaaaaaaaaaaab.txt", "aaaaaaaaaaaaaaaaaaaaaaaaaaaaaaaa.txt")])],
        [(["L", "aaaaaaaaaaaaaaaaaaaaaaaaaaaaaaaa.txt"], [1])]⟩ ["L", "aaaaaaaaaaaaaaaaaaaaaaaaaaaaaaaaa.txt"] = .ok [1] ∧
    ([0] : List ℕ) ≠ [1] := by decide
